import Mathlib

/-!
Verification of the packaging/caching/loading subsystem of
`cerebrum/manager/tool.py` (class `ToolManager`).

Python strings are modelled as `String` / `List Char` (a Python `str` is a
sequence of code points), bytes as `List Nat` with each element `< 256`,
and filesystem / process effects as explicit state passed in and out.
-/

namespace Cerebrum

/-! ### Version codec (`_version_to_path`, `_path_to_version`) -/

/-- Embedding of `ToolManager._version_to_path`: `None` maps to the literal
segment `"latest"`, otherwise every `'.'` is replaced by `'-'`
(Python `str.replace(".", "-")` on a single-character pattern is a
character-wise map). -/
def version_to_path : Option String → String
  | none => "latest"
  | some v => ⟨v.data.map (fun c => if c = '.' then '-' else c)⟩

/-- Embedding of `ToolManager._path_to_version`: every `'-'` is replaced by
`'.'`. -/
def path_to_version (p : String) : String :=
  ⟨p.data.map (fun c => if c = '-' then '.' else c)⟩

/-! ### `load_tool(local=True)`: the `sys.path` effect

The local branch of `ToolManager.load_tool` mutates `sys.path` as follows:

    current_path = str(Path.cwd())
    if current_path not in sys.path:
        sys.path.insert(0, current_path)
    sys.path.insert(0, str(tool_path))
    try:
        ... load the module ...
    finally:
        sys.path.pop(0)
        if current_path == sys.path[0]:
            sys.path.pop(0)

The function below returns the value of `sys.path` after the `finally`
block, given its value before the call.  The loaded module body is assumed
not to touch `sys.path` itself.  The `sys.path[0]` read in the `finally`
block is modelled with `head?`; the list there is never empty, because the
first `pop` removes the unconditionally inserted `tool_path` entry. -/
def load_tool_syspath_effect (cwd tool_path : String) (path : List String) :
    List String :=
  let path1 := if cwd ∈ path then path else cwd :: path
  let path2 := tool_path :: path1
  let path3 := path2.tail
  if path3.head? = some cwd then path3.tail else path3

/-! ### Newest-version selection (`_get_newest_version`)

`_get_newest_version` is
`sorted(versions, key=lambda v: [int(x) for x in v.split(".")])[-1]`
for a non-empty list and `None` otherwise. -/

/-- Characters treated as whitespace by Python `str.strip()` (ASCII
subset). -/
def pyIsSpace (c : Char) : Bool :=
  c == ' ' || c == '\t' || c == '\n' || c == '\r' || c == '\x0b' || c == '\x0c'

def dropLeadingWs : List Char → List Char
  | [] => []
  | c :: cs => if pyIsSpace c then dropLeadingWs cs else c :: cs

/-- Embedding of Python `str.strip()`: drop leading and trailing
whitespace. -/
def pyStrip (cs : List Char) : List Char :=
  (dropLeadingWs ((dropLeadingWs cs).reverse)).reverse

/-- Embedding of Python `str.split(sep)` for a one-character separator:
`"".split(".") == [""]`, and every separator occurrence opens a new
(possibly empty) field. -/
def splitOnChar (sep : Char) : List Char → List (List Char)
  | [] => [[]]
  | c :: cs =>
    match splitOnChar sep cs with
    | [] => [[]]
    | r :: rs => if c = sep then [] :: r :: rs else (c :: r) :: rs

def digitsToNat (cs : List Char) : Nat :=
  cs.foldl (fun acc c => acc * 10 + (c.toNat - '0'.toNat)) 0

/-- Embedding of Python `int(s)` on ASCII decimal strings: optional
surrounding whitespace, an optional `+`/`-` sign, then one or more decimal
digits.  `none` models the `ValueError` Python raises otherwise. -/
def pyInt? (cs : List Char) : Option Int :=
  match pyStrip cs with
  | [] => none
  | c :: rest =>
    if c = '-' then
      if rest ≠ [] ∧ rest.all Char.isDigit then some (-(digitsToNat rest : Int))
      else none
    else if c = '+' then
      if rest ≠ [] ∧ rest.all Char.isDigit then some (digitsToNat rest : Int)
      else none
    else
      if (c :: rest).all Char.isDigit then some (digitsToNat (c :: rest) : Int)
      else none

/-- The sort key `[int(x) for x in v.split(".")]` of one version string;
`none` models the `ValueError` raised on a non-integer component. -/
def versionKey? (v : String) : Option (List Int) :=
  (splitOnChar '.' v.data).mapM pyInt?

/-- Python `list.__le__` on integer lists: lexicographic, a strict prefix
compares below. -/
def pyListLe : List Int → List Int → Bool
  | [], _ => true
  | _ :: _, [] => false
  | a :: as, b :: bs =>
    if a < b then true else if b < a then false else pyListLe as bs

/-- Python `xs[-1]` as an `Option`: the last element of a list. -/
def pyLast? : List α → Option α
  | [] => none
  | [a] => some a
  | _ :: b :: t => pyLast? (b :: t)

inductive FormatError where
  | valueError
deriving DecidableEq

/-- Embedding of `ToolManager._get_newest_version`.  Python's `sorted`
evaluates the key of every element first — raising `ValueError` if any
dot-separated component is not an integer literal — and then sorts stably
by the keys; since the key function is pure, this equals sorting with the
key comparison `pyListLe`.  `[-1]` takes the last element of the sorted
list. -/
def get_newest_version (versions : List String) :
    Except FormatError (Option String) :=
  if versions.isEmpty then .ok none
  else if versions.all (fun v => (versionKey? v).isSome) then
    .ok (pyLast? (versions.mergeSort
      (fun a b => pyListLe ((versionKey? a).getD []) ((versionKey? b).getD []))))
  else .error .valueError

/-! ### Package content transport (`_get_tool_files` / `_save_tool_to_cache`)

`_get_tool_files` stores each file's raw bytes as
`base64.b64encode(f.read()).decode("utf-8")`; `_save_tool_to_cache`
recovers them with `base64.b64decode(file["content"])`.  Bytes are
modelled as `Nat` values `< 256`. -/

def b64Alphabet : List Char :=
  "ABCDEFGHIJKLMNOPQRSTUVWXYZabcdefghijklmnopqrstuvwxyz0123456789+/".data

/-- The base64 digit with 6-bit value `n`. -/
def b64Char (n : Nat) : Char := b64Alphabet.getD n '?'

def indexInList (c : Char) : List Char → Option Nat
  | [] => none
  | d :: ds => if c = d then some 0 else (indexInList c ds).map (· + 1)

/-- The 6-bit value of a base64 digit (`none` for `'='` and for any
character outside the standard alphabet). -/
def b64Index? (c : Char) : Option Nat := indexInList c b64Alphabet

/-- Embedding of `base64.b64encode`: 3-byte groups map to 4 base64 digits,
a trailing group of 1 or 2 bytes is padded with `'='`. -/
def base64Encode : List Nat → List Char
  | [] => []
  | [a] => [b64Char (a / 4), b64Char (a % 4 * 16), '=', '=']
  | [a, b] => [b64Char (a / 4), b64Char (a % 4 * 16 + b / 16),
      b64Char (b % 16 * 4), '=']
  | a :: b :: c :: rest =>
    b64Char (a / 4) :: b64Char (a % 4 * 16 + b / 16)
      :: b64Char (b % 16 * 4 + c / 64) :: b64Char (c % 64)
      :: base64Encode rest

/-- Embedding of `base64.b64decode` on correctly padded input over the
standard alphabet: each 4-digit group yields 3 bytes, a final group padded
with one or two `'='` yields 2 or 1 bytes; anything else is rejected
(Python raises `binascii.Error`).  Like Python, the low bits of the final
digit beyond the encoded bytes are ignored. -/
def base64Decode : List Char → Option (List Nat)
  | [] => some []
  | w :: x :: y :: z :: rest =>
    (match b64Index? w, b64Index? x with
    | some hw, some hx =>
      if y = '=' ∧ z = '=' ∧ rest = [] then some [hw * 4 + hx / 16]
      else
        match b64Index? y with
        | some hy =>
          if z = '=' ∧ rest = [] then
            some [hw * 4 + hx / 16, hx % 16 * 16 + hy / 4]
          else
            match b64Index? z, base64Decode rest with
            | some hz, some tail =>
              some ((hw * 4 + hx / 16) :: (hx % 16 * 16 + hy / 4)
                :: (hy % 4 * 64 + hz) :: tail)
            | _, _ => none
        | none => none
    | _, _ => none)
  | _ => none

/-- The content-field encoding of `_get_tool_files`:
`base64.b64encode(f.read()).decode("utf-8")`. -/
def encodeFileContent (bytes : List Nat) : String := ⟨base64Encode bytes⟩

/-- The content-field decoding of `_save_tool_to_cache`:
`base64.b64decode(file["content"])`. -/
def decodeFileContent (content : String) : Option (List Nat) :=
  base64Decode content.data

/-! ### Requirements checking (`check_reqs_installed`) -/

/-- Embedding of `line.split("==")[0]`: the prefix of the line before the
first occurrence of `"=="` (the whole line when there is none). -/
def splitEqEqHead : List Char → List Char
  | '=' :: '=' :: _ => []
  | c :: cs => c :: splitEqEqHead cs
  | [] => []

/-- Embedding of `str.lower()` (ASCII subset). -/
def pyLower (cs : List Char) : List Char := cs.map Char.toLower

/-- Embedding of `str.splitlines()` restricted to the `\n`, `\r\n` and
`\r` terminators: one line per terminator, plus a final unterminated line
when non-empty.  The first argument is the remaining input, the second the
reversed current line. -/
def pySplitlinesAux : List Char → List Char → List (List Char)
  | [], acc => if acc.isEmpty then [] else [acc.reverse]
  | '\r' :: '\n' :: rest, acc => acc.reverse :: pySplitlinesAux rest []
  | '\n' :: rest, acc => acc.reverse :: pySplitlinesAux rest []
  | '\r' :: rest, acc => acc.reverse :: pySplitlinesAux rest []
  | c :: rest, acc => pySplitlinesAux rest (c :: acc)

def pySplitlines (cs : List Char) : List (List Char) := pySplitlinesAux cs []

/-- The manifest-line filter of `check_reqs_installed`:
`if line.strip() and not line.startswith("#")` — keep lines that are
non-blank after stripping and whose (unstripped) first character is not
`'#'`. -/
def keepReqLine (line : List Char) : Bool :=
  !(pyStrip line).isEmpty && !(line.head? == some '#')

/-- `line.strip().split("==")[0].lower()` — the declared dependency name
of one manifest line. -/
def reqName (line : List Char) : List Char :=
  pyLower (splitEqEqHead (pyStrip line))

/-- `line.split("==")[0].lower()` — the installed-package name taken from
one `pip list --format=freeze` output line. -/
def installedName (line : List Char) : List Char :=
  pyLower (splitEqEqHead line)

/-- The `required_packages` list of `check_reqs_installed`. -/
def parseRequired (content : List Char) : List (List Char) :=
  ((pySplitlines content).filter keepReqLine).map reqName

/-- Embedding of `ToolManager.check_reqs_installed`, parameterised by the
manifest content (`none` when the package has no `requirements.txt`
entry) and by the `pip list --format=freeze` output lines.  The guard
`if not reqs_content` is taken both for a missing manifest and for empty
manifest bytes. -/
def check_reqs_installed (reqsContent : Option (List Char))
    (installedLines : List (List Char)) : Bool :=
  match reqsContent with
  | none => true
  | some content =>
    if content.isEmpty then true
    else (parseRequired content).all
      (fun r => (installedLines.map installedName).contains r)

/-! ### Cached version enumeration (`_get_cached_versions`) -/

/-- One entry of the tool's cache subdirectory. -/
structure DirEntry where
  name : String
  isFile : Bool

/-- The `pathlib.Path.glob` pattern `*.tool`: the entry name ends in
`.tool` (`pathlib` globbing is `fnmatch`-based and, unlike the `glob`
module, does not treat a leading dot specially). -/
def matchesToolGlob (name : List Char) : Bool :=
  ".tool".data.reverse.isPrefixOf name.reverse

/-- The index of the last occurrence of `c` (Python `str.rfind`, as an
`Option`). -/
def lastIdxOf (c : Char) : List Char → Option Nat
  | [] => none
  | d :: ds =>
    match lastIdxOf c ds with
    | some i => some (i + 1)
    | none => if d = c then some 0 else none

/-- Embedding of `pathlib.PurePath.stem`: the name without its suffix,
where the suffix starts at the last `'.'` provided that dot is neither the
first nor the last character of the name. -/
def pathStem (name : List Char) : List Char :=
  match lastIdxOf '.' name with
  | some i => if 0 < i ∧ i < name.length - 1 then name.take i else name
  | none => name

/-- Embedding of `ToolManager._get_cached_versions`, parameterised by
whether the tool's cache subdirectory exists and by its directory
entries. -/
def get_cached_versions (dirExists : Bool) (entries : List DirEntry) :
    List String :=
  if dirExists then
    ((entries.filter (fun e => matchesToolGlob e.name.data)).filter
      (fun e => e.isFile)).map
      (fun e => path_to_version ⟨pathStem e.name.data⟩)
  else []

/-! ### Packaging (`package_tool`, `_get_tool_metadata`) -/

/-- Parsed JSON values, as far as the config schema needs them. -/
inductive Json where
  | null : Json
  | str : String → Json
  | obj : List (String × Json) → Json

/-- Python `dict.get(k)` on an insertion-ordered dictionary: the value at
`k`, or `None` when the key is absent. -/
def dictGet? (d : List (String × α)) (k : String) : Option α :=
  (d.find? (fun p => p.1 == k)).map (fun p => p.2)

/-- Python `dict.get(k, dflt)`. -/
def dictGetD (d : List (String × α)) (k : String) (dflt : α) : α :=
  (dictGet? d k).getD dflt

/-- The dictionary view of a JSON value; `none` models the
`AttributeError` raised when `.get` is called on a non-dict. -/
def asObj? : Json → Option (List (String × Json))
  | .obj fields => some fields
  | _ => none

/-- One entry of the `files` list produced by `_get_tool_files`: relative
path plus base64 text content. -/
structure ToolFile where
  path : String
  content : String

/-- The payload dictionary returned by `package_tool`.  Fields read with
`dict.get(k)` are `Option`-valued (`None` when the key is absent). -/
structure ToolPayload where
  author : Option Json
  name : Option Json
  version : Option Json
  license : Json
  files : List ToolFile
  entry : Json
  module : Json

/-- Embedding of `ToolManager._get_tool_metadata`: a missing `config.json`
yields an empty mapping rather than an error. -/
def get_tool_metadata (configExists : Bool)
    (parsed : List (String × Json)) : List (String × Json) :=
  if configExists then parsed else []

/-- Embedding of `ToolManager.package_tool`, given the parsed metadata
dictionary and the walked file list.  `none` models the `AttributeError`
raised when a present `meta`/`build` value is not itself a dictionary. -/
def package_tool (metadata : List (String × Json))
    (tool_files : List ToolFile) : Option ToolPayload := do
  let meta ← asObj? (dictGetD metadata "meta" (.obj []))
  let build ← asObj? (dictGetD metadata "build" (.obj []))
  some {
    author := dictGet? meta "author"
    name := dictGet? metadata "name"
    version := dictGet? meta "version"
    license := dictGetD metadata "license" (.str "Unknown")
    files := tool_files
    entry := dictGetD build "entry" (.str "tool.py")
    module := dictGetD build "module" (.str "Tool")
  }

/-! ### Requirements installation (`install_tool_reqs`) -/

/-- Behaviour of `subprocess.check_call` on the installer invocation: the
process runs and exits with a code, or the call itself fails with an
OS-level error (an exception other than `CalledProcessError`). -/
inductive RunResult where
  | exit : Nat → RunResult
  | oserror : RunResult

/-- Observable outcome of `install_tool_reqs`: whether an exception
escapes to the caller, and whether the scratch requirements file exists
afterwards. -/
structure InstallOutcome where
  raises : Bool
  tempFileExists : Bool

/-- Embedding of `ToolManager.install_tool_reqs`, parameterised by the
manifest content, the installer behaviour, and whether the scratch file
existed beforehand.  A falsy manifest returns before the scratch file is
written; otherwise the file is written and the installer runs inside
`try/except CalledProcessError/finally`, whose `finally` clause removes
the scratch file with `unlink(missing_ok=True)`. -/
def install_tool_reqs (reqsContent : Option (List Char)) (run : RunResult)
    (tempExisted : Bool) : InstallOutcome :=
  match reqsContent with
  | none => { raises := false, tempFileExists := tempExisted }
  | some content =>
    if content.isEmpty then
      { raises := false, tempFileExists := tempExisted }
    else
      { raises := match run with
          | .exit _ => false
          | .oserror => true
        tempFileExists := false }

/-! ### Module registry effect of `load_tool(local=True)` -/

/-- Python `d[k] = v` on an insertion-ordered dictionary: replace in place
when the key exists, append otherwise. -/
def dictSet : List (String × α) → String → α → List (String × α)
  | [], k, v => [(k, v)]
  | p :: ps, k, v => if p.1 = k then (k, v) :: ps else p :: dictSet ps k v

/-- Python `del d[k]`. -/
def dictDel (d : List (String × α)) (k : String) : List (String × α) :=
  d.filter (fun p => !(p.1 == k))

/-- The `sys.modules` effect of the local branch of `load_tool`:
`sys.modules[module_name] = module` inside the `try`, then in the
`finally` block — on the success and the failure path alike —
`if module_name in sys.modules: del sys.modules[module_name]`.  The
executed module body is assumed not to touch `sys.modules` itself. -/
def load_tool_modules_effect (module_name : String) (fresh : α)
    (modules : List (String × α)) : List (String × α) :=
  let m1 := dictSet modules module_name fresh
  if (dictGet? m1 module_name).isSome then dictDel m1 module_name else m1

/-! ### Saving a downloaded payload (`_save_tool_to_cache`) -/

/-- The `files` mapping built by `_save_tool_to_cache`:
`{file["path"]: base64.b64decode(file["content"]) for file in files}` —
entries are processed left to right, a later entry overwriting an earlier
one with the same path; `none` models a `binascii.Error` raised by
`b64decode`. -/
def save_tool_files (files : List ToolFile) :
    Option (List (String × List Nat)) :=
  files.foldl
    (fun acc e => acc.bind (fun d =>
      (decodeFileContent e.content).map
        (fun bytes => dictSet d e.path bytes)))
    (some [])

/-! ### Theorems for the version codec (claim C2) -/

theorem map_dot_dash_roundtrip (cs : List Char)
    (h : ∀ c ∈ cs, c.isDigit = true ∨ c = '.') :
    (cs.map (fun c => if c = '.' then '-' else c)).map
      (fun c => if c = '-' then '.' else c) = cs := by
  induction cs with
  | nil => rfl
  | cons c cs ih =>
    have hc := h c (List.mem_cons_self ..)
    have hrest : ∀ c ∈ cs, c.isDigit = true ∨ c = '.' :=
      fun x hx => h x (List.mem_cons_of_mem _ hx)
    simp only [List.map_cons, ih hrest]
    rcases hc with hd | hdot
    · have h1 : c ≠ '.' := by
        intro he; subst he; simp [Char.isDigit] at hd
      have h2 : c ≠ '-' := by
        intro he; subst he; simp [Char.isDigit] at hd
      simp [h1, h2]
    · subst hdot; simp

/-- Claim C2: for every version string consisting of digits and dots (hence
containing no `'-'`), `_path_to_version (_version_to_path v) = v`, and
`_version_to_path None` is the literal segment `"latest"`. -/
theorem version_path_roundtrip (v : String)
    (h : ∀ c ∈ v.data, c.isDigit = true ∨ c = '.') :
    path_to_version (version_to_path (some v)) = v ∧
      version_to_path none = "latest" := by
  refine ⟨?_, rfl⟩
  have hd : (version_to_path (some v)).data
      = v.data.map (fun c => if c = '.' then '-' else c) := rfl
  rw [path_to_version, hd, map_dot_dash_roundtrip v.data h]

/-- Witness for C2 at the concrete version `"1.2.0"`. -/
theorem version_path_roundtrip_witness :
    path_to_version (version_to_path (some "1.2.0")) = "1.2.0" ∧
      version_to_path none = "latest" :=
  version_path_roundtrip "1.2.0" (by decide)

/-! ### Theorem for claim C1 (`sys.path` restoration) -/

/-- Claim C1 fails on the code: when the current working directory is
already the first entry of `sys.path` before the call, the cleanup in
`load_tool` pops both the inserted tool path and the pre-existing working
directory entry, so `sys.path` ends up shorter than before the call.  This
theorem evaluates the embedded effect at such a state. -/
theorem load_tool_syspath_not_restored :
    load_tool_syspath_effect "/work" "/tools/calc" ["/work", "/usr/lib"]
      = ["/usr/lib"] ∧
    ("/usr/lib" : String) :: [] ≠ ["/work", "/usr/lib"] := by
  constructor
  · rfl
  · decide

/-! ### Theorems for newest-version selection (claim C3) -/

theorem pyListLe_refl (l : List Int) : pyListLe l l = true := by
  induction l with
  | nil => rfl
  | cons a as ih => simp [pyListLe, ih]

theorem pyListLe_cons (a b : Int) (as bs : List Int) :
    pyListLe (a :: as) (b :: bs) = true ↔
      a < b ∨ (a = b ∧ pyListLe as bs = true) := by
  show (if a < b then true else if b < a then false else pyListLe as bs)
      = true ↔ _
  split_ifs with h1 h2
  · simp [h1]
  · simp only [Bool.false_eq_true, false_iff]
    rintro (h | ⟨h, _⟩) <;> omega
  · have hab : a = b := by omega
    subst hab
    simp [lt_irrefl]

theorem pyListLe_trans : ∀ a b c : List Int,
    pyListLe a b = true → pyListLe b c = true → pyListLe a c = true
  | [], _, _, _, _ => rfl
  | _ :: _, [], _, h, _ => by simp [pyListLe] at h
  | _ :: _, _ :: _, [], _, h => by simp [pyListLe] at h
  | a :: as, b :: bs, c :: cs, h1, h2 => by
    rw [pyListLe_cons] at h1 h2 ⊢
    rcases h1 with h1 | ⟨rfl, h1⟩
    · rcases h2 with h2 | ⟨rfl, h2⟩
      · exact Or.inl (lt_trans h1 h2)
      · exact Or.inl h1
    · rcases h2 with h2 | ⟨rfl, h2⟩
      · exact Or.inl h2
      · exact Or.inr ⟨rfl, pyListLe_trans as bs cs h1 h2⟩

theorem pyListLe_total : ∀ a b : List Int,
    (pyListLe a b || pyListLe b a) = true
  | [], _ => rfl
  | _ :: _, [] => rfl
  | a :: as, b :: bs => by
    rcases lt_trichotomy a b with h | h | h
    · simp [pyListLe, h]
    · subst h
      simpa [pyListLe, lt_irrefl] using pyListLe_total as bs
    · simp [pyListLe, h, not_lt_of_gt h]

theorem pyLast?_mem : ∀ (l : List α) (y : α), pyLast? l = some y → y ∈ l
  | [], _, h => by simp [pyLast?] at h
  | [a], y, h => by
    simp only [pyLast?, Option.some.injEq] at h
    simp [h]
  | _ :: b :: t, y, h =>
    List.mem_cons_of_mem _ (pyLast?_mem (b :: t) y h)

theorem pyLast?_isSome : ∀ (l : List α), l ≠ [] → (pyLast? l).isSome = true
  | [], h => absurd rfl h
  | [_], _ => rfl
  | _ :: b :: t, _ => pyLast?_isSome (b :: t) (by simp)

theorem pyLast?_max {R : α → α → Bool} (hrefl : ∀ a, R a a = true) :
    ∀ (l : List α), l.Pairwise (fun a b => R a b = true) →
      ∀ y, pyLast? l = some y → ∀ x ∈ l, R x y = true
  | [], _, y, hy, x, hx => by simp at hx
  | [a], _, y, hy, x, hx => by
    simp only [pyLast?, Option.some.injEq] at hy
    simp only [List.mem_singleton] at hx
    subst hy; subst hx
    exact hrefl _
  | a :: b :: t, hp, y, hy, x, hx => by
    have hy' : pyLast? (b :: t) = some y := hy
    rcases List.pairwise_cons.mp hp with ⟨ha, hp'⟩
    rcases List.mem_cons.mp hx with rfl | hx'
    · exact ha y (pyLast?_mem _ y hy')
    · exact pyLast?_max hrefl (b :: t) hp' y hy' x hx'

/-- Claim C3: `_get_newest_version` returns `None` on an empty list; on a
non-empty list whose components are all integer-valued it returns a member
whose key is maximal under component-wise numeric comparison; and it fails
with a `ValueError` (format error) when some component is not numeric. -/
theorem get_newest_version_spec (versions : List String) :
    get_newest_version [] = Except.ok none
    ∧ (versions ≠ [] → (∀ v ∈ versions, (versionKey? v).isSome = true) →
        ∃ w kw, get_newest_version versions = Except.ok (some w)
          ∧ w ∈ versions ∧ versionKey? w = some kw
          ∧ ∀ v ∈ versions, ∀ kv, versionKey? v = some kv →
              pyListLe kv kw = true)
    ∧ ((∃ v ∈ versions, versionKey? v = none) →
        get_newest_version versions = Except.error FormatError.valueError) := by
  refine ⟨rfl, ?_, ?_⟩
  · intro hne hall
    have hisEmpty : versions.isEmpty = false := by
      cases versions with
      | nil => exact absurd rfl hne
      | cons a t => rfl
    have hallb : versions.all (fun v => (versionKey? v).isSome) = true :=
      List.all_eq_true.mpr hall
    have heq : get_newest_version versions
        = .ok (pyLast? (versions.mergeSort
            (fun a b => pyListLe ((versionKey? a).getD [])
              ((versionKey? b).getD [])))) := by
      simp [get_newest_version, hisEmpty, hallb]
    have hsne : versions.mergeSort
        (fun a b => pyListLe ((versionKey? a).getD [])
          ((versionKey? b).getD [])) ≠ [] := by
      cases versions with
      | nil => exact absurd rfl hne
      | cons a t =>
        intro hnil
        have ha : a ∈ (a :: t).mergeSort
            (fun a b => pyListLe ((versionKey? a).getD [])
              ((versionKey? b).getD [])) :=
          List.mem_mergeSort.mpr (List.mem_cons_self ..)
        rw [hnil] at ha
        exact List.not_mem_nil _ ha
    obtain ⟨w, hw⟩ := Option.isSome_iff_exists.mp (pyLast?_isSome _ hsne)
    have hwmem : w ∈ versions :=
      List.mem_mergeSort.mp (pyLast?_mem _ w hw)
    obtain ⟨kw, hkw⟩ := Option.isSome_iff_exists.mp (hall w hwmem)
    refine ⟨w, kw, ?_, hwmem, hkw, ?_⟩
    · rw [heq, hw]
    · intro v hv kv hkv
      have htrans : ∀ a b c : String,
          pyListLe ((versionKey? a).getD []) ((versionKey? b).getD []) →
          pyListLe ((versionKey? b).getD []) ((versionKey? c).getD []) →
          pyListLe ((versionKey? a).getD []) ((versionKey? c).getD []) :=
        fun _ _ _ h1 h2 => pyListLe_trans _ _ _ h1 h2
      have htotal : ∀ a b : String,
          (pyListLe ((versionKey? a).getD []) ((versionKey? b).getD []) ||
            pyListLe ((versionKey? b).getD []) ((versionKey? a).getD [])) :=
        fun _ _ => pyListLe_total _ _
      have hpw := List.sorted_mergeSort htrans htotal versions
      have hmax := pyLast?_max
        (R := fun a b : String =>
          pyListLe ((versionKey? a).getD []) ((versionKey? b).getD []))
        (fun a => pyListLe_refl _) _ hpw w hw v
        (List.mem_mergeSort.mpr hv)
      have hmax' : pyListLe ((versionKey? v).getD [])
          ((versionKey? w).getD []) = true := hmax
      rw [hkv, hkw] at hmax'
      simpa using hmax'
  · rintro ⟨v, hv, hnone⟩
    have hisEmpty : versions.isEmpty = false := by
      cases versions with
      | nil => simp at hv
      | cons a t => rfl
    have hallb : versions.all (fun v => (versionKey? v).isSome) = false := by
      rw [List.all_eq_false]
      exact ⟨v, hv, by simp [hnone]⟩
    simp [get_newest_version, hisEmpty, hallb]

/-- Witness for C3: on `["1.2.0", "1.10.0", "1.9.0"]` the result is
`"1.10.0"` — the numeric maximum, not the lexicographic one. -/
theorem get_newest_version_spec_witness :
    get_newest_version ["1.2.0", "1.10.0", "1.9.0"]
      = Except.ok (some "1.10.0") := by
  obtain ⟨w, kw, hrun, hmem, hkey, hmax⟩ :=
    (get_newest_version_spec ["1.2.0", "1.10.0", "1.9.0"]).2.1
      (by decide) (by decide)
  have h10 := hmax "1.10.0" (by decide) [1, 10, 0] (by decide)
  simp only [List.mem_cons, List.mem_singleton, List.not_mem_nil,
    or_false] at hmem
  rcases hmem with rfl | rfl | rfl
  · rw [show versionKey? "1.2.0" = some [1, 2, 0] from by decide] at hkey
    cases hkey
    exact absurd h10 (by decide)
  · exact hrun
  · rw [show versionKey? "1.9.0" = some [1, 9, 0] from by decide] at hkey
    cases hkey
    exact absurd h10 (by decide)

/-! ### Theorems for the content transport (claim C5) -/

theorem b64Index_b64Char : ∀ n < 64, b64Index? (b64Char n) = some n := by
  decide

theorem b64Char_ne_pad : ∀ n < 64, b64Char n ≠ '=' := by decide

theorem pack_div (u v m : Nat) (hv : v < m) (hm : 0 < m) :
    (u * m + v) / m = u := by
  rw [mul_comm, Nat.mul_add_div hm, Nat.div_eq_of_lt hv, Nat.add_zero]

theorem pack_mod (u v m : Nat) (hv : v < m) : (u * m + v) % m = v := by
  rw [mul_comm, Nat.mul_add_mod, Nat.mod_eq_of_lt hv]

theorem base64_roundtrip : ∀ l : List Nat, (∀ b ∈ l, b < 256) →
    base64Decode (base64Encode l) = some l
  | [], _ => rfl
  | [a], h => by
    have ha : a < 256 := h a (by simp)
    have h1 : a / 4 < 64 := by omega
    have h2 : a % 4 * 16 < 64 := by omega
    have e1 : (a % 4 * 16) / 16 = a % 4 := by
      have h0 := pack_div (a % 4) 0 16 (by omega) (by omega)
      rw [Nat.add_zero] at h0
      exact h0
    simp [base64Encode, base64Decode, b64Index_b64Char _ h1,
      b64Index_b64Char _ h2, e1]
    omega
  | [a, b], h => by
    have ha : a < 256 := h a (by simp)
    have hb : b < 256 := h b (by simp)
    have h1 : a / 4 < 64 := by omega
    have h2 : a % 4 * 16 + b / 16 < 64 := by omega
    have h3 : b % 16 * 4 < 64 := by omega
    have e1 : (a % 4 * 16 + b / 16) / 16 = a % 4 :=
      pack_div _ _ _ (by omega) (by omega)
    have e2 : (a % 4 * 16 + b / 16) % 16 = b / 16 :=
      pack_mod _ _ _ (by omega)
    have e3 : (b % 16 * 4) / 4 = b % 16 := by
      have h0 := pack_div (b % 16) 0 4 (by omega) (by omega)
      rw [Nat.add_zero] at h0
      exact h0
    simp [base64Encode, base64Decode, b64Index_b64Char _ h1,
      b64Index_b64Char _ h2, b64Index_b64Char _ h3, b64Char_ne_pad _ h1,
      b64Char_ne_pad _ h2, b64Char_ne_pad _ h3, e1, e2, e3]
    omega
  | a :: b :: c :: rest, h => by
    have ha : a < 256 := h a (by simp)
    have hb : b < 256 := h b (by simp)
    have hc : c < 256 := h c (by simp)
    have ih := base64_roundtrip rest
      (fun x hx => h x (by simp [hx]))
    have h1 : a / 4 < 64 := by omega
    have h2 : a % 4 * 16 + b / 16 < 64 := by omega
    have h3 : b % 16 * 4 + c / 64 < 64 := by omega
    have h4 : c % 64 < 64 := by omega
    have e1 : (a % 4 * 16 + b / 16) / 16 = a % 4 :=
      pack_div _ _ _ (by omega) (by omega)
    have e2 : (a % 4 * 16 + b / 16) % 16 = b / 16 :=
      pack_mod _ _ _ (by omega)
    have e3 : (b % 16 * 4 + c / 64) / 4 = b % 16 :=
      pack_div _ _ _ (by omega) (by omega)
    have e4 : (b % 16 * 4 + c / 64) % 4 = c / 64 :=
      pack_mod _ _ _ (by omega)
    simp [base64Encode, base64Decode, b64Index_b64Char _ h1,
      b64Index_b64Char _ h2, b64Index_b64Char _ h3, b64Index_b64Char _ h4,
      b64Char_ne_pad _ h1, b64Char_ne_pad _ h2, b64Char_ne_pad _ h3,
      b64Char_ne_pad _ h4, ih, e1, e2, e3, e4]
    omega

/-- Claim C5: encoding a file's bytes as done in `_get_tool_files` and then
decoding as done in `_save_tool_to_cache` yields exactly the original
bytes. -/
theorem file_content_roundtrip (bytes : List Nat)
    (h : ∀ b ∈ bytes, b < 256) :
    decodeFileContent (encodeFileContent bytes) = some bytes :=
  base64_roundtrip bytes h

/-- Witness for C5 at a concrete byte sequence (length `3k+1`, exercising
padding). -/
theorem file_content_roundtrip_witness :
    decodeFileContent (encodeFileContent [0, 255, 77, 10])
      = some [0, 255, 77, 10] :=
  file_content_roundtrip [0, 255, 77, 10] (by decide)

/-! ### Theorems for requirements checking (claim C4) -/

/-- Claim C4: `check_reqs_installed` is `true` whenever there is no
requirements manifest, and otherwise `true` exactly when every declared
dependency name (lower-cased, version part dropped) occurs among the
installed-package names (lower-cased, versions ignored). -/
theorem check_reqs_installed_spec (installedLines : List (List Char))
    (content : List Char) :
    check_reqs_installed none installedLines = true
    ∧ (check_reqs_installed (some content) installedLines = true ↔
        ∀ r ∈ parseRequired content,
          r ∈ installedLines.map installedName) := by
  refine ⟨rfl, ?_⟩
  by_cases hc : content.isEmpty = true
  · have hnil : content = [] := by
      cases content with
      | nil => rfl
      | cons a t => simp at hc
    subst hnil
    simp [check_reqs_installed, parseRequired, pySplitlines,
      pySplitlinesAux]
  · have hrw : check_reqs_installed (some content) installedLines
        = (parseRequired content).all
          (fun r => (installedLines.map installedName).contains r) := by
      simp [check_reqs_installed, hc]
    rw [hrw, List.all_eq_true]
    constructor
    · intro h r hr
      have := h r hr
      simpa using this
    · intro h r hr
      have := h r hr
      simpa using this

/-- Witness for C4: a package with no manifest passes regardless of the
installed set. -/
theorem check_reqs_installed_spec_witness :
    check_reqs_installed none ["numpy==1.26".data] = true :=
  (check_reqs_installed_spec ["numpy==1.26".data] []).1

/-! ### Theorems for cached version enumeration (claim C6) -/

/-- Claim C6: `_get_cached_versions` returns the empty list when the cache
subdirectory does not exist; otherwise its results are exactly the decoded
stems of the file entries matching `*.tool`, e.g. `1-0-0.tool` and
`2-1-0.tool` yield `"1.0.0"` and `"2.1.0"`. -/
theorem get_cached_versions_spec (entries : List DirEntry) :
    get_cached_versions false entries = []
    ∧ (∀ v, v ∈ get_cached_versions true entries ↔
        ∃ e ∈ entries, matchesToolGlob e.name.data = true ∧ e.isFile = true
          ∧ v = path_to_version ⟨pathStem e.name.data⟩)
    ∧ get_cached_versions true
        [⟨"1-0-0.tool", true⟩, ⟨"2-1-0.tool", true⟩]
      = ["1.0.0", "2.1.0"] := by
  refine ⟨rfl, ?_, by decide⟩
  intro v
  rw [show get_cached_versions true entries
      = ((entries.filter (fun e => matchesToolGlob e.name.data)).filter
          (fun e => e.isFile)).map
          (fun e => path_to_version ⟨pathStem e.name.data⟩) from rfl]
  constructor
  · intro hv
    obtain ⟨e, he, rfl⟩ := List.mem_map.mp hv
    obtain ⟨he1, hfile⟩ := List.mem_filter.mp he
    obtain ⟨hmem, hglob⟩ := List.mem_filter.mp he1
    exact ⟨e, hmem, hglob, hfile, rfl⟩
  · rintro ⟨e, hmem, hglob, hfile, rfl⟩
    exact List.mem_map.mpr
      ⟨e, List.mem_filter.mpr ⟨List.mem_filter.mpr ⟨hmem, hglob⟩, hfile⟩, rfl⟩

/-- Witness for C6 at a directory holding one package entry and one
non-package entry. -/
theorem get_cached_versions_spec_witness :
    get_cached_versions false [⟨"1-0-0.tool", true⟩] = [] :=
  (get_cached_versions_spec [⟨"1-0-0.tool", true⟩]).1

/-! ### Theorems for packaging (claim C7) -/

/-- Claim C7: `package_tool` builds a payload whose `author`/`version`
come from the config's nested `meta` object, whose `entry`/`module` come
from its nested `build` object with defaults `"tool.py"`/`"Tool"`, whose
`license` defaults to `"Unknown"`, and a missing `config.json` yields an
empty metadata mapping rather than an error. -/
theorem package_tool_spec (metadata : List (String × Json))
    (tool_files : List ToolFile) (mo bo : List (String × Json))
    (hm : dictGetD metadata "meta" (Json.obj []) = Json.obj mo)
    (hb : dictGetD metadata "build" (Json.obj []) = Json.obj bo) :
    package_tool metadata tool_files = some {
        author := dictGet? mo "author"
        name := dictGet? metadata "name"
        version := dictGet? mo "version"
        license := dictGetD metadata "license" (Json.str "Unknown")
        files := tool_files
        entry := dictGetD bo "entry" (Json.str "tool.py")
        module := dictGetD bo "module" (Json.str "Tool") }
    ∧ (dictGet? bo "entry" = none →
        dictGetD bo "entry" (Json.str "tool.py") = Json.str "tool.py")
    ∧ (dictGet? bo "module" = none →
        dictGetD bo "module" (Json.str "Tool") = Json.str "Tool")
    ∧ (dictGet? metadata "license" = none →
        dictGetD metadata "license" (Json.str "Unknown")
          = Json.str "Unknown")
    ∧ (∀ parsed, get_tool_metadata false parsed = []) := by
  refine ⟨?_, ?_, ?_, ?_, fun _ => rfl⟩
  · simp only [package_tool]
    rw [hm, hb]
    rfl
  · intro h; simp [dictGetD, h]
  · intro h; simp [dictGetD, h]
  · intro h; simp [dictGetD, h]

/-- Witness for C7: a config with only a `meta.author` key yields the
documented defaults for `entry`, `module` and `license`, and `None` for
the absent `name` and `version`. -/
theorem package_tool_spec_witness :
    package_tool [("meta", Json.obj [("author", Json.str "alice")])] []
      = some { author := some (Json.str "alice"), name := none,
               version := none, license := Json.str "Unknown",
               files := [], entry := Json.str "tool.py",
               module := Json.str "Tool" } :=
  (package_tool_spec [("meta", Json.obj [("author", Json.str "alice")])]
    [] [("author", Json.str "alice")] [] rfl rfl).1

/-! ### Theorems for requirements installation (claim C8) -/

/-- Claim C8: with a non-empty manifest, an installer exit — zero or
non-zero — does not propagate an error, and the scratch requirements file
is gone on every exit path, including a non-`CalledProcessError` fault of
the call itself. -/
theorem install_tool_reqs_spec (content : List Char) (run : RunResult)
    (tempExisted : Bool) (h : content ≠ []) :
    ((∃ k, run = RunResult.exit k) →
      (install_tool_reqs (some content) run tempExisted).raises = false)
    ∧ (install_tool_reqs (some content) run tempExisted).tempFileExists
        = false := by
  have hc : content.isEmpty = false := by
    cases content with
    | nil => exact absurd rfl h
    | cons a t => rfl
  constructor
  · rintro ⟨k, rfl⟩
    simp [install_tool_reqs, hc]
  · simp [install_tool_reqs, hc]

/-- Witness for C8 at a manifest declaring one package and an installer
exiting with status 1. -/
theorem install_tool_reqs_spec_witness :
    ((∃ k, RunResult.exit 1 = RunResult.exit k) →
      (install_tool_reqs (some "requests".data) (RunResult.exit 1)
        true).raises = false)
    ∧ (install_tool_reqs (some "requests".data) (RunResult.exit 1)
        true).tempFileExists = false :=
  install_tool_reqs_spec "requests".data (RunResult.exit 1) true
    (by decide)

/-! ### Theorems for the module registry effect (claim C9) -/

theorem dictGet?_cons (k1 : String) (v1 : α) (ps : List (String × α))
    (q : String) :
    dictGet? ((k1, v1) :: ps) q
      = if k1 = q then some v1 else dictGet? ps q := by
  by_cases h : k1 = q
  · subst h
    simp [dictGet?, List.find?_cons]
  · simp [dictGet?, List.find?_cons, h]

theorem dictGet?_dictSet (d : List (String × α)) (k : String) (v : α) :
    dictGet? (dictSet d k v) k = some v := by
  induction d with
  | nil => simp [dictSet, dictGet?_cons]
  | cons p ps ih =>
    rcases p with ⟨k1, v1⟩
    by_cases h : k1 = k
    · subst h
      simp [dictSet, dictGet?_cons]
    · simp [dictSet, h, dictGet?_cons, ih]

theorem dictGet?_dictSet_ne (d : List (String × α)) (k q : String) (v : α)
    (h : q ≠ k) : dictGet? (dictSet d k v) q = dictGet? d q := by
  have h' : ¬ k = q := fun he => h he.symm
  induction d with
  | nil => simp [dictSet, dictGet?_cons, dictGet?, h']
  | cons p ps ih =>
    rcases p with ⟨k1, v1⟩
    by_cases hk : k1 = k
    · subst hk
      simp [dictSet, dictGet?_cons, h']
    · simp [dictSet, hk, dictGet?_cons, ih]

theorem dictGet?_dictDel (d : List (String × α)) (k : String) :
    dictGet? (dictDel d k) k = none := by
  induction d with
  | nil => rfl
  | cons p ps ih =>
    rcases p with ⟨k1, v1⟩
    by_cases h : k1 = k
    · simpa [dictDel, List.filter_cons, h] using ih
    · simp only [dictDel, List.filter_cons] at ih ⊢
      simp [h, dictGet?_cons, ih]

/-- Claim C9: a pre-existing `sys.modules` binding under the tool's module
name is not restored by `load_tool(name, local=True)`: the load overwrites
it with the fresh module and the cleanup deletes the key entirely, so the
registry is not returned to its pre-call state. -/
theorem load_tool_modules_not_restored (module_name : String) (fresh : α)
    (modules : List (String × α)) (old : α)
    (h : dictGet? modules module_name = some old) :
    dictGet? (load_tool_modules_effect module_name fresh modules)
        module_name = none
    ∧ load_tool_modules_effect module_name fresh modules ≠ modules := by
  have hset := dictGet?_dictSet modules module_name fresh
  have heff : load_tool_modules_effect module_name fresh modules
      = dictDel (dictSet modules module_name fresh) module_name := by
    simp [load_tool_modules_effect, hset]
  rw [heff]
  refine ⟨dictGet?_dictDel _ _, ?_⟩
  intro hEq
  have hdel := dictGet?_dictDel (dictSet modules module_name fresh)
    module_name
  rw [hEq, h] at hdel
  exact Option.noConfusion hdel

/-- Witness for C9: a registry already binding `"Tool"` loses that binding
entirely. -/
theorem load_tool_modules_not_restored_witness :
    dictGet? (load_tool_modules_effect "Tool" (1 : Nat) [("Tool", 0)])
        "Tool" = none
    ∧ load_tool_modules_effect "Tool" (1 : Nat) [("Tool", 0)]
        ≠ [("Tool", 0)] :=
  load_tool_modules_not_restored "Tool" 1 [("Tool", 0)] 0 (by decide)

/-! ### Theorems for saving a payload (claim C10) -/

/-- Claim C10: when the downloaded payload's file list contains several
entries with the same path, `_save_tool_to_cache` silently keeps the
content of the last such entry and raises no error for the duplication:
the built mapping at every path is the decoded content of the last entry
carrying that path. -/
theorem save_tool_files_last_wins (files : List ToolFile)
    (h : ∀ e ∈ files, (decodeFileContent e.content).isSome = true) :
    ∃ d, save_tool_files files = some d
      ∧ ∀ p, dictGet? d p
          = (files.reverse.find? (fun e => e.path == p)).bind
              (fun e => decodeFileContent e.content) := by
  induction files using List.reverseRecOn with
  | nil => exact ⟨[], rfl, fun p => rfl⟩
  | append_singleton l e ih =>
    obtain ⟨d, hd, hget⟩ := ih (fun x hx => h x (by simp [hx]))
    obtain ⟨bytes, hbytes⟩ :=
      Option.isSome_iff_exists.mp (h e (by simp))
    refine ⟨dictSet d e.path bytes, ?_, ?_⟩
    · have hstep : save_tool_files (l ++ [e])
          = (save_tool_files l).bind (fun d =>
              (decodeFileContent e.content).map
                (fun bytes => dictSet d e.path bytes)) := by
        simp [save_tool_files, List.foldl_append]
      rw [hstep, hd, hbytes]
      rfl
    · intro p
      have hrev : (l ++ [e]).reverse = e :: l.reverse := by simp
      rw [hrev]
      by_cases hp : e.path = p
      · have hfind : (e :: l.reverse).find? (fun x => x.path == p)
            = some e := by
          simp [List.find?_cons, hp]
        rw [hfind, ← hp, dictGet?_dictSet]
        exact hbytes.symm
      · have hfind : (e :: l.reverse).find? (fun x => x.path == p)
            = l.reverse.find? (fun x => x.path == p) := by
          simp [List.find?_cons, hp]
        rw [hfind, dictGet?_dictSet_ne _ _ _ _ (fun he => hp he.symm)]
        exact hget p

/-- Witness for C10: two entries for path `a.py` (base64 `"QQ=="` = byte
65, `"Qg=="` = byte 66); the saved mapping keeps the bytes of the second
entry. -/
theorem save_tool_files_last_wins_witness :
    ∃ d, save_tool_files [⟨"a.py", "QQ=="⟩, ⟨"a.py", "Qg=="⟩] = some d
      ∧ ∀ p, dictGet? d p
          = ([(⟨"a.py", "QQ=="⟩ : ToolFile), ⟨"a.py", "Qg=="⟩].reverse.find?
              (fun e => e.path == p)).bind
              (fun e => decodeFileContent e.content) :=
  save_tool_files_last_wins [⟨"a.py", "QQ=="⟩, ⟨"a.py", "Qg=="⟩]
    (by decide)

end Cerebrum
